import Mathlib

/-!
Oil runtime: `mycpp/gc_mylib.h` and `mycpp/demo/target_lang.cc`.

A shallow embedding of the parts of the Oil C++ runtime that the properties
below talk about:

* `mylib::dict_erase` over the three parallel arrays of `Dict`;
* the field masks of `Base` / `Derived`, `Node_mask`, and the `gc_mylib`
  object types;
* the `BufWriter` validity flag;
* `kIntBufSize` and `hex_lower` / `hex_upper` / `octal`;
* `compare`, `parse` and the test `except_demo`, with exceptions as `Except`.

C++ `int` values are `Int`, array indices that have been bounds-checked are
`Nat`, and a `uint16_t` result is a `Nat` reduced modulo `2 ^ 16`.
-/

namespace Oil

/-! ## Dict: data model -/

/-- Modelled from the spec: the `tombstone` slot state of §3.  The constant
`kDeletedEntry` is used by `dict_erase` but declared in a header that is not
part of the sources at hand; the numeric value only has to differ from
`kEmptyEntry`. -/
def kDeletedEntry : Int := -1

/-- Modelled from the spec: the `empty` slot state of §3 (declared next to
`kDeletedEntry`).  Every other value of a slot of `entry_` means `occupied`. -/
def kEmptyEntry : Int := -2

/-- The fields of `Dict<K, V>` that `dict_erase` reads and writes:
`entry_->items_`, `keys_->items_`, `values_->items_`, `len_`, and the table
size `capacity_`. -/
structure Dict (K V : Type) where
  entry_ : List Int
  keys_ : List K
  values_ : List V
  len_ : Int
  capacity_ : Nat
deriving DecidableEq, Repr

variable {K V : Type}

/-- The three slabs have `capacity_` items each. -/
def Dict.WellFormed (d : Dict K V) : Prop :=
  d.entry_.length = d.capacity_ ∧ d.keys_.length = d.capacity_ ∧
    d.values_.length = d.capacity_

instance (d : Dict K V) : Decidable d.WellFormed := by
  unfold Dict.WellFormed; infer_instance

/-- Slot state `occupied`: neither `empty` nor `tombstone`. -/
def isOccupied (special : Int) : Bool :=
  special != kEmptyEntry && special != kDeletedEntry

/-- Number of occupied slots of the table. -/
def Dict.occupied (d : Dict K V) : Nat :=
  d.entry_.countP isOccupied

/-- Modelled from the spec: the probe loop of `Dict::position_of_key`, which
is called by `dict_erase` but defined outside the sources at hand.  Following
§4.4 (`lookup` "probes identically, treating tombstone as keep probing"): visit
the slots `start, start + 1, ...` modulo the table size, at most once each;
an `empty` slot ends the search with not found, a `tombstone` or an `occupied`
slot with another key is skipped, an `occupied` slot with the key is the
answer.  `n` is the number of slots still to visit, `i` the number visited. -/
def Dict.probe [DecidableEq K] [Zero K] (d : Dict K V) (key : K) (start : Nat) :
    Nat → Nat → Int
  | 0, _ => -1
  | n + 1, i =>
    let slot := (start + i) % d.capacity_
    let special := d.entry_.getD slot kEmptyEntry
    if special = kDeletedEntry then d.probe key start n (i + 1)
    else if special = kEmptyEntry then -1
    else if d.keys_.getD slot 0 = key then (slot : Int)
    else d.probe key start n (i + 1)

/-- Modelled from the spec: `Dict::position_of_key`, the slot of `key` or `-1`.
Probing starts at `hash(key) mod table_size` (§4.4); the hash function is a
parameter, so a plain scan from slot `0` is the instance `hash = fun _ => 0`. -/
def Dict.position_of_key [DecidableEq K] [Zero K] (hash : K → Nat) (d : Dict K V)
    (key : K) : Int :=
  d.probe key (hash key % d.capacity_) d.capacity_ 0

/-- Modelled from the spec: `lookup(key) -> value or NotFound` of §4.4, the
value stored at the slot that `position_of_key` reports. -/
def Dict.lookup [DecidableEq K] [Zero K] (hash : K → Nat) (d : Dict K V) (key : K) :
    Option V :=
  let pos := d.position_of_key hash key
  if pos = -1 then none else d.values_.get? pos.toNat

/-- The function `mylib::dict_erase` of `gc_mylib.h`:
```
int pos = haystack->position_of_key(needle);
if (pos == -1) { return; }
haystack->entry_->items_[pos] = kDeletedEntry;
haystack->keys_->items_[pos] = 0;
haystack->values_->items_[pos] = 0;
haystack->len_--;
```
-/
def dict_erase [DecidableEq K] [Zero K] [Zero V] (hash : K → Nat) (haystack : Dict K V)
    (needle : K) : Dict K V :=
  let pos := haystack.position_of_key hash needle
  if pos = -1 then haystack
  else
    { haystack with
      entry_ := haystack.entry_.set pos.toNat kDeletedEntry
      keys_ := haystack.keys_.set pos.toNat 0
      values_ := haystack.values_.set pos.toNat 0
      len_ := haystack.len_ - 1 }

/-- Keys are unique: no two occupied slots hold the same key. -/
def Dict.UniqueKeys [DecidableEq K] [Zero K] (d : Dict K V) : Prop :=
  ∀ i, i < d.capacity_ → ∀ j, j < d.capacity_ →
    isOccupied (d.entry_.getD i kEmptyEntry) = true →
    isOccupied (d.entry_.getD j kEmptyEntry) = true →
    d.keys_.getD i 0 = d.keys_.getD j 0 → i = j

instance [DecidableEq K] [Zero K] (d : Dict K V) : Decidable d.UniqueKeys := by
  unfold Dict.UniqueKeys; infer_instance

/-- A small table used to exercise the statements: keys `7`, `8`, `9` in
slots `0`, `1`, `2`, slot `3` empty. -/
def exampleDict : Dict Int Int :=
  { entry_ := [0, 0, 0, -2], keys_ := [7, 8, 9, 0], values_ := [70, 80, 90, 0],
    len_ := 3, capacity_ := 4 }

/-! ## Object header and field masks -/

/-- The heap tags that the sources at hand name: only `Tag::FixedSize`. -/
inductive Tag where
  | FixedSize
deriving DecidableEq, Repr

/-- Modelled from the spec: `kZeroMask`, the mask "for types with no pointers"
(no bit set).  The constant is declared outside the sources at hand. -/
def kZeroMask : Nat := 0

/-- Conversion to `uint16_t`, the type of `field_mask_` and of the `maskof_`
functions. -/
def toUint16 (n : Nat) : Nat := n % 2 ^ 16

/-- The header `Obj` as its constructor `Obj(heap_tag, field_mask, obj_len)`
fills it. -/
structure Obj where
  heap_tag_ : Tag
  field_mask_ : Nat
  obj_len_ : Nat
deriving DecidableEq, Repr

/-- The constructor `Obj(uint8_t heap_tag, uint16_t field_mask, int obj_len)`. -/
def Obj.ctor (heap_tag : Tag) (field_mask obj_len : Nat) : Obj :=
  { heap_tag_ := heap_tag, field_mask_ := toUint16 field_mask, obj_len_ := obj_len }

/-- The class `Base` of `target_lang.cc`; the pointer members `left` and
`right` are not initialised by the constructor and carry no state here. -/
structure Base where
  header : Obj
  i : Int
deriving DecidableEq, Repr

/-- The constructor of `Base`:
`Base(int i) : Obj(Tag::FixedSize, kZeroMask, 0), i(i) { field_mask_ = 0x9; }`. -/
def Base.ctor (i : Int) : Base :=
  let header := Obj.ctor Tag.FixedSize kZeroMask 0
  { header := { header with field_mask_ := 0x9 }, i := i }

/-- The class `Derived` of `target_lang.cc` (member `three` is not initialised). -/
structure Derived where
  base : Base
  j : Int
deriving DecidableEq, Repr

/-- The constructor of `Derived`:
`Derived(int i, int j) : Base(i), j(j) { field_mask_ = 0x5; }`. -/
def Derived.ctor (i j : Int) : Derived :=
  let base := Base.ctor i
  { base := { base with header := { base.header with field_mask_ := 0x5 } }, j := j }

/-- The member `field_mask_` that a `Derived` object inherits from `Obj`. -/
def Derived.field_mask_ (d : Derived) : Nat := d.base.header.field_mask_

/-- The member `field_mask_` that a `Base` object inherits from `Obj`. -/
def Base.field_mask_ (b : Base) : Nat := b.header.field_mask_

/-- The compiled (`#else`) variant of `Node_mask` in `target_lang.cc`:
```
return (1 << (offsetof(Node, left) / sizeof(void*)) |
        1 << (offsetof(Node, right) / sizeof(void*)));
```
returned as `uint16_t`.  The layout is a parameter: `stride` is
`sizeof(void*)`, `o_left` and `o_right` are the two `offsetof` values. -/
def Node_mask (stride o_left o_right : Nat) : Nat :=
  toUint16 ((1 <<< (o_left / stride)) ||| (1 <<< (o_right / stride)))

/-- The variant of `Node_mask` under `#if 0`, which is not compiled: the two
`static_assert(o % stride == 0, "oops")` reject the layout (`none`), otherwise
the mask is built with `mask |= 1 << b1; mask |= 1 << b2;`. -/
def Node_mask_static_assert (stride o_left o_right : Nat) : Option Nat :=
  let mask := 0
  let o1 := o_left
  if o1 % stride ≠ 0 then none
  else
    let o2 := o_right
    if o2 % stride ≠ 0 then none
    else
      let b1 := o1 / stride
      let b2 := o2 / stride
      let mask := toUint16 (mask ||| (1 <<< b1))
      let mask := toUint16 (mask ||| (1 <<< b2))
      some mask

/-- Modelled from the spec: `maskbit_v`, declared outside the sources at
hand.  By §4.1 bit `k` of a mask stands for the word at offset
`k × pointer-size` from the object's payload start, so the bit of a member at
byte offset `offset` is `1 << ((offset - payload_start) / sizeof(void*))`. -/
def maskbit_v (ptr_size payload_start offset : Nat) : Nat :=
  1 <<< ((offset - payload_start) / ptr_size)

/-- The function `maskof_BufLineReader()` of `gc_mylib.h`:
`return maskbit_v(offsetof(BufLineReader, s_));` as `uint16_t`. -/
def maskof_BufLineReader (ptr_size payload_start offsetof_s_ : Nat) : Nat :=
  toUint16 (maskbit_v ptr_size payload_start offsetof_s_)

/-- The function `maskof_BufWriter()` of `gc_mylib.h`:
`return maskbit_v(offsetof(BufWriter, buf_));` as `uint16_t`. -/
def maskof_BufWriter (ptr_size payload_start offsetof_buf_ : Nat) : Nat :=
  toUint16 (maskbit_v ptr_size payload_start offsetof_buf_)

/-- The constructor `LineReader(uint16_t field_mask, int obj_len)`, which
passes `Tag::FixedSize`, the mask and the length to `Obj`. -/
def LineReader.ctor (field_mask obj_len : Nat) : Obj :=
  Obj.ctor Tag.FixedSize field_mask obj_len

/-- The class `BufLineReader`: header, `Str* s_`, `int pos_`. -/
structure BufLineReader where
  header : Obj
  s_ : List Char
  pos_ : Int
deriving DecidableEq, Repr

/-- The constructor `BufLineReader(Str* s)`:
`LineReader(maskof_BufLineReader(), sizeof(BufLineReader)), s_(s), pos_(0)`. -/
def BufLineReader.ctor (ptr_size payload_start offsetof_s_ sizeof_BufLineReader : Nat)
    (s : List Char) : BufLineReader :=
  { header := LineReader.ctor (maskof_BufLineReader ptr_size payload_start offsetof_s_)
      sizeof_BufLineReader,
    s_ := s, pos_ := 0 }

/-- The class `CFileLineReader`: header and the `FILE* f_`, a handle that is
not a heap reference. -/
structure CFileLineReader where
  header : Obj
  f_ : Nat
deriving DecidableEq, Repr

/-- The constructor `CFileLineReader(FILE* f)`:
`LineReader(kZeroMask, sizeof(CFileLineReader)), f_(f)`. -/
def CFileLineReader.ctor (sizeof_CFileLineReader : Nat) (f : Nat) : CFileLineReader :=
  { header := LineReader.ctor kZeroMask sizeof_CFileLineReader, f_ := f }

/-! ## BufWriter -/

/-- The constructor `Writer(uint8_t heap_tag, uint16_t field_mask, int obj_len)`,
which passes its arguments to `Obj`. -/
def Writer.ctor (heap_tag : Tag) (field_mask obj_len : Nat) : Obj :=
  Obj.ctor heap_tag field_mask obj_len

/-- The class `Buf`: the bytes held by `str_`, the data length `len_`, and the
capacity that `capacity()` reports. -/
structure Buf where
  str_ : List Char
  len_ : Nat
  cap_ : Nat
deriving DecidableEq, Repr

/-- Modelled from the spec: `Buf::Buf(int cap)`, declared in `gc_mylib.h` and
defined outside the sources at hand; `new(initial_capacity)` of §4.5. -/
def Buf.ctor (cap : Nat) : Buf :=
  { str_ := [], len_ := 0, cap_ := cap }

/-- Modelled from the spec: `Buf::Extend(Str* s)`, defined outside the sources
at hand; `extend` of §4.5 appends and, when the capacity is exceeded, grows the
backing storage by doubling (at least to the length needed). -/
def Buf.Extend (b : Buf) (s : List Char) : Buf :=
  let new_len := b.len_ + s.length
  { str_ := b.str_ ++ s, len_ := new_len,
    cap_ := if new_len ≤ b.cap_ then b.cap_ else max (2 * b.cap_) new_len }

/-- The class `BufWriter`: header, `Buf buf_`, and the flag `is_valid_`. -/
structure BufWriter where
  header : Obj
  buf_ : Buf
  is_valid_ : Bool
deriving DecidableEq, Repr

/-- The constructor of `BufWriter`:
`BufWriter() : Writer(Tag::FixedSize, maskof_BufWriter(), sizeof(BufWriter)), buf_(0)`
with the member initialiser `bool is_valid_ = true`. -/
def BufWriter.ctor (ptr_size payload_start offsetof_buf_ sizeof_BufWriter : Nat) :
    BufWriter :=
  { header := Writer.ctor Tag.FixedSize (maskof_BufWriter ptr_size payload_start offsetof_buf_)
      sizeof_BufWriter,
    buf_ := Buf.ctor 0, is_valid_ := true }

/-- The condition a write on a frozen buffer is reported with (§7). -/
inductive BufError where
  | UseAfterFreeze
deriving DecidableEq, Repr

/-- Modelled from the spec: `BufWriter::write(Str* s)`, declared in
`gc_mylib.h` and defined outside the sources at hand.  By §4.5 `extend` on a
frozen buffer fails fast with UseAfterFreeze, appending zero bytes is a no-op,
and otherwise the bytes are appended. -/
def BufWriter.write (w : BufWriter) (s : List Char) : Except BufError BufWriter :=
  if w.is_valid_ then
    if s.length = 0 then Except.ok w
    else Except.ok { w with buf_ := w.buf_.Extend s }
  else Except.error BufError.UseAfterFreeze

/-- Modelled from the spec: `BufWriter::getvalue()`, declared in `gc_mylib.h`
("It becomes invalid after getvalue() is called") and defined outside the
sources at hand.  By §4.5 `freeze` yields the current contents as a value and
marks the buffer invalid. -/
def BufWriter.getvalue (w : BufWriter) : List Char × BufWriter :=
  (w.buf_.str_, { w with is_valid_ := false })

/-- A call on a `BufWriter` made by client code. -/
inductive BufOp where
  | write (s : List Char)
  | getvalue
deriving DecidableEq, Repr

/-- The writer after one call; a write that fails leaves the object as it is. -/
def BufWriter.apply (w : BufWriter) : BufOp → BufWriter
  | BufOp.write s =>
    match w.write s with
    | Except.ok w' => w'
    | Except.error _ => w
  | BufOp.getvalue => w.getvalue.2

/-- The writer after a sequence of calls. -/
def BufWriter.run (w : BufWriter) (ops : List BufOp) : BufWriter :=
  ops.foldl BufWriter.apply w

/-! ## Integer formatting -/

/-- The platform constant `CHAR_BIT`, 8 bits per byte. -/
def CHAR_BIT : Nat := 8

/-- The platform constant `sizeof(int)`, 4 bytes (32-bit `int`). -/
def sizeof_int : Nat := 4

/-- The constant `kIntBufSize` of `gc_mylib.h`:
`const int kIntBufSize = CHAR_BIT * sizeof(int) / 3 + 3;`. -/
def kIntBufSize : Nat := CHAR_BIT * sizeof_int / 3 + 3

/-- The `unsigned int` that `printf` reads when an `int` is passed for `%x`,
`%X` or `%o`: the value modulo `2 ^ 32`. -/
def int_as_unsigned (i : Int) : Nat :=
  (i % 2 ^ (CHAR_BIT * sizeof_int)).toNat

/-- The text the C library produces for `%o` (base 8), `%x` (base 16) and `%X`
(base 16, upper case): the digits of the unsigned value, most significant
first, `0` for zero. -/
def format_unsigned (base : Nat) (upper : Bool) (u : Nat) : List Char :=
  let digits := Nat.toDigits base u
  if upper then digits.map Char.toUpper else digits

/-- The C library function `snprintf(buf, size, ...)` applied to the text the
format produces: at most `size - 1` characters are stored in `buf` (followed
by the terminator), and the length of the whole text is returned. -/
def snprintf (size : Nat) (text : List Char) : List Char × Int :=
  (text.take (size - 1), (text.length : Int))

/-- The runtime function `::StrFromC(const char* s, int len)`: a `Str` with
the first `len` bytes of `s`.  The result is `none` when `len` bytes are not
there to copy (a read past what `snprintf` stored). -/
def StrFromC (s : List Char) (len : Int) : Option (List Char) :=
  if 0 ≤ len ∧ len.toNat ≤ s.length then some (s.take len.toNat) else none

/-- The function `hex_lower` of `gc_mylib.h`:
`char buf[kIntBufSize]; int len = snprintf(buf, kIntBufSize, "%x", i);`
`return ::StrFromC(buf, len);`. -/
def hex_lower (i : Int) : Option (List Char) :=
  let r := snprintf kIntBufSize (format_unsigned 16 false (int_as_unsigned i))
  StrFromC r.1 r.2

/-- The function `hex_upper` of `gc_mylib.h`, with the format `%X`. -/
def hex_upper (i : Int) : Option (List Char) :=
  let r := snprintf kIntBufSize (format_unsigned 16 true (int_as_unsigned i))
  StrFromC r.1 r.2

/-- The function `octal` of `gc_mylib.h`, with the format `%o`. -/
def octal (i : Int) : Option (List Char) :=
  let r := snprintf kIntBufSize (format_unsigned 8 false (int_as_unsigned i))
  StrFromC r.1 r.2

/-! ## Exceptions: `compare`, `parse`, `except_demo` -/

/-- The exception objects thrown in `target_lang.cc`: `std::invalid_argument`
with its message, `FatalError`, and `ParseError` with its reason. -/
inductive Exn where
  | invalid_argument (what : String)
  | FatalError
  | ParseError (reason : String)
deriving DecidableEq, Repr

/-- The type named by a `catch` clause. -/
inductive ExnClass where
  | invalid_argument
  | FatalError
  | ParseError
deriving DecidableEq, Repr

/-- Whether a `catch` clause for `handler` takes the exception `e`: the class
itself or a class derived from it.  `class ParseError : public FatalError`, so
a `FatalError` handler takes a `ParseError`, and not the other way round. -/
def Exn.caughtBy (e : Exn) (handler : ExnClass) : Bool :=
  match e, handler with
  | Exn.invalid_argument _, ExnClass.invalid_argument => true
  | Exn.FatalError, ExnClass.FatalError => true
  | Exn.ParseError _, ExnClass.ParseError => true
  | Exn.ParseError _, ExnClass.FatalError => true
  | _, _ => false

/-- The statement `try { body } catch (handler& e) { on_catch }`: an exception
of `body` that the clause does not take propagates. -/
def try_catch {α : Type} (body : Except Exn α) (handler : ExnClass)
    (on_catch : Exn → Except Exn α) : Except Exn α :=
  match body with
  | Except.ok a => Except.ok a
  | Except.error e => if e.caughtBy handler then on_catch e else Except.error e

/-- The function `compare` of `target_lang.cc`:
```
if (a < 0 || b < 0) { throw std::invalid_argument("received negative value"); }
return a < b;
```
-/
def compare (a b : Int) : Except Exn Int :=
  if a < 0 ∨ b < 0 then
    Except.error (Exn.invalid_argument "received negative value")
  else
    Except.ok (if a < b then 1 else 0)

/-- The function `parse` of `target_lang.cc`; `text[0]` of the empty C string
is the terminator:
```
if (text[0] == 'f') { throw ParseError("started with f"); }
return 0;
```
-/
def parse (text : List Char) : Except Exn Int :=
  if text.headD (Char.ofNat 0) = 'f' then
    Except.error (Exn.ParseError "started with f")
  else
    Except.ok 0

/-- The function `throw_fatal`: `throw FatalError();`. -/
def throw_fatal : Except Exn Unit :=
  Except.error Exn.FatalError

/-- The function `except_subclass_demo`:
`try { throw_fatal(); } catch (ParseError& e) { log(...); }`. -/
def except_subclass_demo : Except Exn Unit :=
  try_catch throw_fatal ExnClass.ParseError (fun _ => Except.ok ())

/-- The body of the test `except_demo` up to its assertion: the value of
`num_caught` after the two plain calls of `compare` and the four `try` blocks
(`log` only prints). -/
def except_demo_num_caught : Except Exn Int := do
  let num_caught : Int := 0
  let _ ← compare 1 3
  let _ ← compare 5 4
  let num_caught ← try_catch (do let _ ← compare (-1) 3; pure num_caught)
    ExnClass.invalid_argument (fun _ => pure (num_caught + 1))
  let num_caught ← try_catch (do let _ ← parse ['f', 'o', 'o']; pure num_caught)
    ExnClass.ParseError (fun _ => pure (num_caught + 1))
  let num_caught ← try_catch (do let _ ← parse ['b', 'a', 'r']; pure num_caught)
    ExnClass.ParseError (fun _ => pure (num_caught + 1))
  let num_caught ← try_catch (do except_subclass_demo; pure num_caught)
    ExnClass.FatalError (fun _ => pure (num_caught + 1))
  pure num_caught

/-- The outcome of a `greatest` test function. -/
inductive TestResult where
  | PASS
  | FAIL
deriving DecidableEq, Repr

/-- The test `except_demo`: the body, then `ASSERT_EQ_FMT(3, num_caught, "%d")`
and `PASS()`. -/
def except_demo : Except Exn TestResult := do
  let num_caught ← except_demo_num_caught
  if 3 = num_caught then pure TestResult.PASS else pure TestResult.FAIL

/-! ## Dict: lemmas about the arrays and the probe loop -/

theorem getD_set_ne {α : Type} (l : List α) {i j : Nat} (a dflt : α) (h : i ≠ j) :
    (l.set i a).getD j dflt = l.getD j dflt := by
  simp [List.getD_eq_getElem?_getD, List.getElem?_set_ne h]

theorem getD_set_self {α : Type} (l : List α) {i : Nat} (a dflt : α) (h : i < l.length) :
    (l.set i a).getD i dflt = a := by
  simp [List.getD_eq_getElem?_getD, h]

theorem lt_length_of_getD_ne {α : Type} (l : List α) {i : Nat} (dflt : α)
    (h : l.getD i dflt ≠ dflt) : i < l.length := by
  by_contra hlt
  exact h (by simp [List.getD_eq_getElem?_getD, List.getElem?_eq_none (not_lt.mp hlt)])

theorem isOccupied_kDeletedEntry : isOccupied kDeletedEntry = false := by decide

theorem isOccupied_kEmptyEntry : isOccupied kEmptyEntry = false := by decide

theorem isOccupied_iff (special : Int) :
    isOccupied special = true ↔ special ≠ kDeletedEntry ∧ special ≠ kEmptyEntry := by
  simp [isOccupied, and_comm]

/-- An occupied slot is a slot of the table. -/
theorem lt_length_of_isOccupied (l : List Int) {i : Nat}
    (h : isOccupied (l.getD i kEmptyEntry) = true) : i < l.length := by
  apply lt_length_of_getD_ne l kEmptyEntry
  intro he
  rw [he, isOccupied_kEmptyEntry] at h
  exact Bool.false_ne_true h

/-- Turning an occupied slot into a tombstone lowers the occupied count by one. -/
theorem countP_set_tombstone (l : List Int) (s : Nat)
    (h : isOccupied (l.getD s kEmptyEntry) = true) :
    (l.set s kDeletedEntry).countP isOccupied + 1 = l.countP isOccupied := by
  induction l generalizing s with
  | nil => simp [isOccupied_kEmptyEntry] at h
  | cons x xs ih =>
    cases s with
    | zero =>
      simp only [List.getD_cons_zero] at h
      simp [List.countP_cons, h, isOccupied_kDeletedEntry]
    | succ s =>
      simp only [List.getD_cons_succ] at h
      have := ih s h
      simp only [List.set_cons_succ, List.countP_cons]
      omega

/-- What the probe loop returns: `-1`, or an occupied slot holding the key. -/
theorem probe_found [DecidableEq K] [Zero K] (d : Dict K V) (key : K) (start : Nat) :
    ∀ (n i : Nat), d.probe key start n i ≠ -1 →
      ∃ s : Nat, d.probe key start n i = (s : Int) ∧
        isOccupied (d.entry_.getD s kEmptyEntry) = true ∧ d.keys_.getD s 0 = key := by
  intro n
  induction n with
  | zero => intro i h; simp [Dict.probe] at h
  | succ n ih =>
    intro i h
    unfold Dict.probe at h ⊢
    simp only at h ⊢
    split_ifs at h ⊢ with h1 h2 h3
    · exact ih _ h
    · exact absurd rfl h
    · exact ⟨_, rfl, (isOccupied_iff _).2 ⟨h1, h2⟩, h3⟩
    · exact ih _ h

/-- What `position_of_key` returns: `-1`, or an occupied slot holding the key. -/
theorem position_of_key_found [DecidableEq K] [Zero K] (hash : K → Nat) (d : Dict K V)
    (key : K) (h : d.position_of_key hash key ≠ -1) :
    ∃ s : Nat, d.position_of_key hash key = (s : Int) ∧ s < d.entry_.length ∧
      isOccupied (d.entry_.getD s kEmptyEntry) = true ∧ d.keys_.getD s 0 = key := by
  obtain ⟨s, hs, hocc, hkey⟩ := probe_found d key _ _ _ h
  exact ⟨s, hs, lt_length_of_isOccupied _ hocc, hocc, hkey⟩

/-- The state after erasing a key found at slot `s`. -/
theorem dict_erase_found [DecidableEq K] [Zero K] [Zero V] (hash : K → Nat) (d : Dict K V)
    (k : K) (s : Nat) (h : d.position_of_key hash k = (s : Int)) :
    dict_erase hash d k =
      { d with
        entry_ := d.entry_.set s kDeletedEntry
        keys_ := d.keys_.set s 0
        values_ := d.values_.set s 0
        len_ := d.len_ - 1 } := by
  have hne : (s : Int) ≠ -1 := by omega
  simp [dict_erase, h, hne]

/-- Probing for another key is blind to the erased slot: the slot was occupied
by a different key before and is a tombstone after, and both are skipped. -/
theorem probe_set_tombstone [DecidableEq K] [Zero K] (d : Dict K V) (A : K) (s : Nat)
    (v : List V) (m : Int)
    (hocc : isOccupied (d.entry_.getD s kEmptyEntry) = true) (hkey : d.keys_.getD s 0 ≠ A)
    (start : Nat) :
    ∀ (n i : Nat),
      Dict.probe
        { d with entry_ := d.entry_.set s kDeletedEntry, keys_ := d.keys_.set s 0,
                 values_ := v, len_ := m } A start n i
        = d.probe A start n i := by
  have hs := lt_length_of_isOccupied _ hocc
  obtain ⟨hd1, hd2⟩ := (isOccupied_iff _).1 hocc
  intro n
  induction n with
  | zero => intro i; rfl
  | succ n ih =>
    intro i
    unfold Dict.probe
    simp only
    by_cases hslot : (start + i) % d.capacity_ = s
    · rw [hslot, getD_set_self _ _ _ hs]
      simp only [if_true, if_neg hd1, if_neg hd2, if_neg hkey]
      exact ih _
    · rw [getD_set_ne _ _ _ (Ne.symm hslot), getD_set_ne _ _ _ (Ne.symm hslot), ih]

/-! ## Dict: `mylib::dict_erase` -/

/-- C1: erasing a key that `position_of_key` does not find (result `-1`) is a
no-op.  `dict_erase` is a total function with no error result, and the Dict it
returns is the one it was given: every slot of `entry_`, `keys_` and `values_`
and the length `len_` are as they were. -/
theorem dict_erase_absent_noop [DecidableEq K] [Zero K] [Zero V] (hash : K → Nat)
    (d : Dict K V) (k : K) (h : d.position_of_key hash k = -1) :
    dict_erase hash d k = d ∧
      (dict_erase hash d k).entry_ = d.entry_ ∧ (dict_erase hash d k).keys_ = d.keys_ ∧
      (dict_erase hash d k).values_ = d.values_ ∧ (dict_erase hash d k).len_ = d.len_ := by
  have : dict_erase hash d k = d := by simp [dict_erase, h]
  simp [this]

theorem dict_erase_absent_noop_witness :
    exampleDict.position_of_key (fun _ => 0) 5 = -1 ∧
      dict_erase (fun _ => 0) exampleDict 5 = exampleDict :=
  ⟨by decide, (dict_erase_absent_noop (fun _ => 0) exampleDict 5 (by decide)).1⟩

/-- C2: when the key is present at slot `pos` (`position_of_key` returns
`pos`, `pos ≠ -1`), after `dict_erase` the slot state `entry_[pos]` is
`kDeletedEntry` and `keys_[pos]` and `values_[pos]` are zero. -/
theorem dict_erase_zeroes_slot [DecidableEq K] [Zero K] [Zero V] (hash : K → Nat)
    (d : Dict K V) (k : K) (pos : Int) (hwf : d.WellFormed)
    (hpos : d.position_of_key hash k = pos) (hne : pos ≠ -1) :
    0 ≤ pos ∧
      (dict_erase hash d k).entry_[pos.toNat]? = some kDeletedEntry ∧
      (dict_erase hash d k).keys_[pos.toNat]? = some 0 ∧
      (dict_erase hash d k).values_[pos.toNat]? = some 0 := by
  subst hpos
  obtain ⟨s, hs, hlt, -, -⟩ := position_of_key_found hash d k hne
  obtain ⟨h1, h2, h3⟩ := hwf
  rw [dict_erase_found hash d k s hs, hs]
  have hk : s < d.keys_.length := by omega
  have hv : s < d.values_.length := by omega
  simp [hlt, hk, hv]

theorem dict_erase_zeroes_slot_witness :
    exampleDict.position_of_key (fun _ => 0) 8 = 1 ∧
      (dict_erase (fun _ => 0) exampleDict 8).entry_[1]? = some kDeletedEntry ∧
      (dict_erase (fun _ => 0) exampleDict 8).keys_[1]? = some 0 ∧
      (dict_erase (fun _ => 0) exampleDict 8).values_[1]? = some 0 :=
  ⟨by decide,
    (dict_erase_zeroes_slot (fun _ => 0) exampleDict 8 1 (by decide) (by decide)
      (by decide)).2⟩

/-- C3: `dict_erase` preserves the live-length invariant.  If `len_` equals
the number of occupied slots before the call, it does so after the call; it is
lower by exactly one when the key was found, unchanged otherwise, and not
negative. -/
theorem dict_erase_preserves_len [DecidableEq K] [Zero K] [Zero V] (hash : K → Nat)
    (d : Dict K V) (k : K) (hinv : d.len_ = (d.occupied : Int)) :
    (dict_erase hash d k).len_ = ((dict_erase hash d k).occupied : Int) ∧
      (d.position_of_key hash k ≠ -1 → (dict_erase hash d k).len_ = d.len_ - 1) ∧
      (d.position_of_key hash k = -1 → (dict_erase hash d k).len_ = d.len_) ∧
      0 ≤ (dict_erase hash d k).len_ := by
  by_cases h : d.position_of_key hash k = -1
  · have : dict_erase hash d k = d := by simp [dict_erase, h]
    simp [this, h, hinv]
  · obtain ⟨s, hs, -, hocc, -⟩ := position_of_key_found hash d k h
    have hcount := countP_set_tombstone d.entry_ s hocc
    rw [dict_erase_found hash d k s hs]
    simp only [Dict.occupied] at hinv
    refine ⟨?_, fun _ => rfl, fun h' => absurd h' h, ?_⟩
    · show d.len_ - 1 = ((d.entry_.set s kDeletedEntry).countP isOccupied : Int)
      omega
    · show 0 ≤ d.len_ - 1
      omega

theorem dict_erase_preserves_len_witness :
    exampleDict.len_ = (exampleDict.occupied : Int) ∧
      (dict_erase (fun _ => 0) exampleDict 8).len_ = 2 ∧
      (dict_erase (fun _ => 0) exampleDict 8).len_
        = ((dict_erase (fun _ => 0) exampleDict 8).occupied : Int) :=
  ⟨by decide, by decide,
    (dict_erase_preserves_len (fun _ => 0) exampleDict 8 (by decide)).1⟩

/-- C4: tombstone correctness (with `position_of_key` and `lookup` modelled
from the spec).  In a Dict with unique keys that holds the key `B`, after
`dict_erase` of `B` the lookup of `B` reports not found, and for every other
key `A` the lookup gives the same slot and the same value as before, also
when the probe sequence of `A` passes through the slot `B` had. -/
theorem dict_erase_tombstone_correct [DecidableEq K] [Zero K] [Zero V] (hash : K → Nat)
    (d : Dict K V) (B : K) (hwf : d.WellFormed) (huniq : d.UniqueKeys)
    (hB : d.position_of_key hash B ≠ -1) :
    (dict_erase hash d B).position_of_key hash B = -1 ∧
      (dict_erase hash d B).lookup hash B = none ∧
      ∀ A : K, A ≠ B →
        (dict_erase hash d B).position_of_key hash A = d.position_of_key hash A ∧
        (dict_erase hash d B).lookup hash A = d.lookup hash A := by
  obtain ⟨s, hs, hlt, hocc, hkey⟩ := position_of_key_found hash d B hB
  obtain ⟨hw1, hw2, hw3⟩ := hwf
  have herase := dict_erase_found hash d B s hs
  have hposB : (dict_erase hash d B).position_of_key hash B = -1 := by
    by_contra hfound
    obtain ⟨t, -, htlt, htocc, htkey⟩ :=
      position_of_key_found hash (dict_erase hash d B) B hfound
    rw [herase] at htlt htocc htkey
    simp only [List.length_set] at htlt
    by_cases hts : s = t
    · subst hts
      rw [getD_set_self _ _ _ hlt, isOccupied_kDeletedEntry] at htocc
      exact Bool.false_ne_true htocc
    · rw [getD_set_ne _ _ _ hts] at htocc htkey
      exact hts (huniq s (by omega) t (by omega) hocc htocc (hkey.trans htkey.symm))
  refine ⟨hposB, by simp [Dict.lookup, hposB], ?_⟩
  intro A hAB
  have hkeyA : d.keys_.getD s 0 ≠ A := by rw [hkey]; exact Ne.symm hAB
  have hposA : (dict_erase hash d B).position_of_key hash A = d.position_of_key hash A := by
    rw [herase]
    exact probe_set_tombstone d A s _ _ hocc hkeyA _ _ _
  refine ⟨hposA, ?_⟩
  simp only [Dict.lookup, hposA]
  by_cases hA : d.position_of_key hash A = -1
  · simp [hA]
  · obtain ⟨t, ht, -, -, htkey⟩ := position_of_key_found hash d A hA
    have hts : s ≠ t := by
      intro h
      subst h
      exact hkeyA htkey
    rw [if_neg hA, if_neg hA, herase, ht]
    simp [List.getElem?_set_ne hts]

theorem dict_erase_tombstone_correct_witness :
    (dict_erase (fun _ => 0) exampleDict 8).position_of_key (fun _ => 0) 8 = -1 ∧
      (dict_erase (fun _ => 0) exampleDict 8).lookup (fun _ => 0) 9 = some 90 ∧
      exampleDict.lookup (fun _ => 0) 9 = some 90 :=
  have h := dict_erase_tombstone_correct (fun _ => 0) exampleDict 8 (by decide) (by decide)
    (by decide)
  ⟨h.1, by decide, by decide⟩

/-! ## Field masks -/

/-- Bit `k` of a one-bit mask `1 << w` that fits the sixteen bits of a
`uint16_t`. -/
theorem testBit_toUint16_one_shiftLeft (w k : Nat) (hw : w < 16) :
    (toUint16 (1 <<< w)).testBit k = true ↔ k = w := by
  simp only [toUint16, Nat.testBit_mod_two_pow, Nat.one_shiftLeft, Nat.testBit_two_pow,
    Bool.and_eq_true, decide_eq_true_eq]
  constructor
  · rintro ⟨-, h⟩; exact h.symm
  · rintro rfl; exact ⟨hw, rfl⟩

/-- Bit `k` of `Node_mask`, for a bit position of the `uint16_t`. -/
theorem testBit_Node_mask (stride o_left o_right k : Nat) (hk : k < 16) :
    (Node_mask stride o_left o_right).testBit k = true ↔
      k = o_left / stride ∨ k = o_right / stride := by
  simp only [Node_mask, toUint16, Nat.testBit_mod_two_pow, Nat.testBit_or, Nat.one_shiftLeft,
    Nat.testBit_two_pow, Bool.and_eq_true, Bool.or_eq_true, decide_eq_true_eq]
  constructor
  · rintro ⟨-, h | h⟩
    · exact Or.inl h.symm
    · exact Or.inr h.symm
  · rintro (h | h)
    · exact ⟨hk, Or.inl h.symm⟩
    · exact ⟨hk, Or.inr h.symm⟩

/-- C5 (as stated, refuted): the final mask of `Derived(4, 5)`, the object of
`inheritance_demo`, does not contain the mask `0x9` that `Base`'s constructor
establishes: `0x5 AND 0x9` is `0x1`, base bit 3 is cleared. -/
theorem derived_mask_drops_base_bit :
    (Base.ctor 4).field_mask_ = 0x9 ∧
      ¬ ((Derived.ctor 4 5).field_mask_ &&& (Base.ctor 4).field_mask_
          = (Base.ctor 4).field_mask_) := by
  decide

/-- C5 (amended): the field mask of every `Derived(i, j)` object is the value
that `Derived`'s constructor assigns last, `0x5`; it replaces the `0x9` that
`Base`'s constructor established.  Of the base bits, bit 0 is kept and bit 3
is cleared: `(Derived mask AND Base mask) = 0x1`. -/
theorem derived_mask_replaces_base (i j : Int) :
    (Base.ctor i).field_mask_ = 0x9 ∧
      (Derived.ctor i j).field_mask_ = 0x5 ∧
      (Derived.ctor i j).field_mask_ &&& (Base.ctor i).field_mask_ = 0x1 ∧
      (Derived.ctor i j).field_mask_.testBit 0 = true ∧
      (Derived.ctor i j).field_mask_.testBit 3 = false ∧
      (Derived.ctor i j).base.i = i ∧ (Derived.ctor i j).j = j := by
  refine ⟨rfl, rfl, ?_, ?_, ?_, rfl, rfl⟩ <;>
    simp only [Derived.ctor, Base.ctor, Derived.field_mask_, Base.field_mask_] <;> decide

/-- The mask of one member at byte offset `off`, on a word boundary of the
payload and within the sixteen words of a `uint16_t`: exactly the bit of the
member's word is set, that word starts at `off`, and no member that starts
in the payload before `off`, or a pointer size or more after it, has its bit
set. -/
theorem maskbit_v_member (ptr_size payload_start off : Nat) (hp : 0 < ptr_size)
    (hle : payload_start ≤ off) (hal : ptr_size ∣ off - payload_start)
    (h16 : (off - payload_start) / ptr_size < 16) :
    (∀ k, (toUint16 (maskbit_v ptr_size payload_start off)).testBit k = true ↔
        k = (off - payload_start) / ptr_size) ∧
      payload_start + ptr_size * ((off - payload_start) / ptr_size) = off ∧
      (∀ o, off + ptr_size ≤ o →
        (toUint16 (maskbit_v ptr_size payload_start off)).testBit
          ((o - payload_start) / ptr_size) = false) ∧
      (∀ o, payload_start ≤ o → o < off →
        (toUint16 (maskbit_v ptr_size payload_start off)).testBit
          ((o - payload_start) / ptr_size) = false) := by
  have hbit : ∀ k, (toUint16 (maskbit_v ptr_size payload_start off)).testBit k = true ↔
      k = (off - payload_start) / ptr_size :=
    fun k => testBit_toUint16_one_shiftLeft _ k h16
  obtain ⟨c, hc⟩ := hal
  have hw : (off - payload_start) / ptr_size = c := by
    rw [hc, Nat.mul_div_cancel_left c hp]
  refine ⟨hbit, by rw [hw]; omega, ?_, ?_⟩
  · intro o ho
    rw [Bool.eq_false_iff]
    intro h
    have heq := (hbit _).1 h
    have h2 : ptr_size * (c + 1) ≤ o - payload_start := by
      rw [Nat.mul_add, Nat.mul_one]; omega
    have h3 : c + 1 ≤ (o - payload_start) / ptr_size :=
      (Nat.le_div_iff_mul_le hp).2 (by rw [Nat.mul_comm]; exact h2)
    rw [heq, hw] at h3
    omega
  · intro o hpo ho
    rw [Bool.eq_false_iff]
    intro h
    have heq := (hbit _).1 h
    have h2 : o - payload_start < ptr_size * c := by omega
    have h3 : (o - payload_start) / ptr_size < c :=
      (Nat.div_lt_iff_lt_mul hp).2 (by rw [Nat.mul_comm]; exact h2)
    rw [heq, hw] at h3
    omega

/-- C6 (with `maskbit_v` and `kZeroMask` modelled from the spec): in a layout
with pointer size `ptr_size` whose payload starts at `payload_start`, and in
which `s_` and `buf_` lie on word boundaries of the payload, within the
sixteen words a `uint16_t` mask describes,
* `maskof_BufLineReader()` is the mask in the header of every `BufLineReader`
  and has exactly one bit set, the bit of the word that starts at
  `offsetof(BufLineReader, s_)`; no payload member before `s_` or a pointer
  size or more after it, as `pos_`, has its bit set;
* `maskof_BufWriter()` is the mask in the header of every `BufWriter` and has
  exactly one bit set, the bit of the word that starts at
  `offsetof(BufWriter, buf_)`, where `buf_.str_` lies (`str_` is the first
  member of `Buf`); no payload member before `buf_` or a pointer size or more
  after it, as `buf_.len_` and `is_valid_`, has its bit set;
* a `CFileLineReader` is constructed with the zero mask: no bit is set.
All three headers carry `Tag::FixedSize` and the object length passed. -/
theorem gc_mylib_masks_exact (ptr_size payload_start offsetof_s_ offsetof_buf_ : Nat)
    (hp : 0 < ptr_size)
    (hs : payload_start ≤ offsetof_s_) (hsa : ptr_size ∣ offsetof_s_ - payload_start)
    (hs16 : (offsetof_s_ - payload_start) / ptr_size < 16)
    (hb : payload_start ≤ offsetof_buf_) (hba : ptr_size ∣ offsetof_buf_ - payload_start)
    (hb16 : (offsetof_buf_ - payload_start) / ptr_size < 16) :
    (∀ k, (maskof_BufLineReader ptr_size payload_start offsetof_s_).testBit k = true ↔
        k = (offsetof_s_ - payload_start) / ptr_size) ∧
      (∀ sz s, (BufLineReader.ctor ptr_size payload_start offsetof_s_ sz s).header.field_mask_
        = maskof_BufLineReader ptr_size payload_start offsetof_s_) ∧
      (∀ k, (maskof_BufWriter ptr_size payload_start offsetof_buf_).testBit k = true ↔
        k = (offsetof_buf_ - payload_start) / ptr_size) ∧
      (∀ o, offsetof_buf_ + ptr_size ≤ o →
        (maskof_BufWriter ptr_size payload_start offsetof_buf_).testBit
          ((o - payload_start) / ptr_size) = false) ∧
      (∀ sz f, (CFileLineReader.ctor sz f).header.field_mask_ = 0 ∧
        ∀ k, (CFileLineReader.ctor sz f).header.field_mask_.testBit k = false) ∧
      (∀ sz, (BufWriter.ctor ptr_size payload_start offsetof_buf_ sz).header.field_mask_
        = maskof_BufWriter ptr_size payload_start offsetof_buf_) ∧
      (∀ sz k,
        (BufWriter.ctor ptr_size payload_start offsetof_buf_ sz).header.field_mask_.testBit k
          = true ↔ k = (offsetof_buf_ - payload_start) / ptr_size) ∧
      (∀ sz s k,
        (BufLineReader.ctor ptr_size payload_start offsetof_s_ sz s).header.field_mask_.testBit k
          = true ↔ k = (offsetof_s_ - payload_start) / ptr_size) ∧
      (payload_start + ptr_size * ((offsetof_s_ - payload_start) / ptr_size) = offsetof_s_ ∧
        payload_start + ptr_size * ((offsetof_buf_ - payload_start) / ptr_size)
          = offsetof_buf_) ∧
      (∀ o, offsetof_s_ + ptr_size ≤ o ∨ (payload_start ≤ o ∧ o < offsetof_s_) →
        (maskof_BufLineReader ptr_size payload_start offsetof_s_).testBit
          ((o - payload_start) / ptr_size) = false) ∧
      (∀ o, payload_start ≤ o → o < offsetof_buf_ →
        (maskof_BufWriter ptr_size payload_start offsetof_buf_).testBit
          ((o - payload_start) / ptr_size) = false) ∧
      (∀ sz s f,
        (BufLineReader.ctor ptr_size payload_start offsetof_s_ sz s).header.heap_tag_
          = Tag.FixedSize ∧
        (BufLineReader.ctor ptr_size payload_start offsetof_s_ sz s).header.obj_len_ = sz ∧
        (BufWriter.ctor ptr_size payload_start offsetof_buf_ sz).header.heap_tag_
          = Tag.FixedSize ∧
        (BufWriter.ctor ptr_size payload_start offsetof_buf_ sz).header.obj_len_ = sz ∧
        (CFileLineReader.ctor sz f).header.heap_tag_ = Tag.FixedSize ∧
        (CFileLineReader.ctor sz f).header.obj_len_ = sz) := by
  obtain ⟨hs1, hs2, hs3, hs4⟩ := maskbit_v_member ptr_size payload_start offsetof_s_ hp hs hsa hs16
  obtain ⟨hb1, hb2, hb3, hb4⟩ :=
    maskbit_v_member ptr_size payload_start offsetof_buf_ hp hb hba hb16
  have hrd : ∀ sz s,
      (BufLineReader.ctor ptr_size payload_start offsetof_s_ sz s).header.field_mask_
        = maskof_BufLineReader ptr_size payload_start offsetof_s_ := by
    intro sz s
    simp only [BufLineReader.ctor, LineReader.ctor, Obj.ctor, maskof_BufLineReader, toUint16,
      Nat.mod_mod]
  have hwr : ∀ sz, (BufWriter.ctor ptr_size payload_start offsetof_buf_ sz).header.field_mask_
      = maskof_BufWriter ptr_size payload_start offsetof_buf_ := by
    intro sz
    simp only [BufWriter.ctor, Writer.ctor, Obj.ctor, maskof_BufWriter, toUint16, Nat.mod_mod]
  refine ⟨hs1, hrd, hb1, hb3, ?_, hwr, ?_, ?_, ⟨hs2, hb2⟩, ?_, hb4, ?_⟩
  · intro sz f
    refine ⟨by simp [CFileLineReader.ctor, LineReader.ctor, Obj.ctor, kZeroMask, toUint16], ?_⟩
    intro k
    simp [CFileLineReader.ctor, LineReader.ctor, Obj.ctor, kZeroMask, toUint16]
  · intro sz k
    rw [hwr sz]
    exact hb1 k
  · intro sz s k
    rw [hrd sz s]
    exact hs1 k
  · intro o ho
    rcases ho with ho | ho
    · exact hs3 o ho
    · exact hs4 o ho.1 ho.2
  · intro sz s f
    exact ⟨rfl, rfl, rfl, rfl, rfl, rfl⟩

/-- The 64-bit layout: vtable pointer and header in bytes `0..15`, `s_` and
`buf_` at offset `16`.  Both masks are `1`, the headers of a new
`BufLineReader` and of a new `BufWriter` hold `1`, and the words of `pos_`
and of `buf_.len_` (offset `24`) and of `is_valid_` (offset `32`) have no bit. -/
theorem gc_mylib_masks_exact_witness :
    maskof_BufLineReader 8 16 16 = 1 ∧ maskof_BufWriter 8 16 16 = 1 ∧
      (maskof_BufWriter 8 16 16).testBit ((24 - 16) / 8) = false ∧
      (BufWriter.ctor 8 16 16 40).header.field_mask_ = 1 ∧
      (BufLineReader.ctor 8 16 16 32 ['a']).header.field_mask_ = 1 ∧
      (maskof_BufWriter 8 16 16).testBit ((32 - 16) / 8) = false ∧
      (maskof_BufLineReader 8 16 16).testBit ((24 - 16) / 8) = false ∧
      (CFileLineReader.ctor 24 0).header.field_mask_ = 0 :=
  have h := gc_mylib_masks_exact 8 16 16 16 (by decide) (by decide) (by decide) (by decide)
    (by decide) (by decide) (by decide)
  ⟨by decide, by decide, h.2.2.2.1 24 (by decide), by decide, by decide,
    h.2.2.2.1 32 (by decide), h.2.2.2.2.2.2.2.2.2.1 24 (Or.inl (by decide)),
    (h.2.2.2.2.1 24 0).1⟩

/-- C7: `Node_mask()` is the union of the bits of the two owning-reference
members, in units of the pointer width.  For every pointer size `stride` and
every layout in which `left` and `right` lie on word boundaries, bit `k` of the
`uint16_t` that `Node_mask()` returns is set if and only if
`k = offsetof(Node, left) / sizeof(void*)` or
`k = offsetof(Node, right) / sizeof(void*)`; this holds for each of the sixteen
bit positions `k`, and for every `k` when both words are among the first
sixteen.  A member in any other word, as the ints `i`, `j`, `k`, has no bit.
On the 64-bit layout (offsets 8 and 24) the mask is binary `1010`. -/
theorem Node_mask_exact (stride o_left o_right : Nat)
    (hl : stride ∣ o_left) (hr : stride ∣ o_right) :
    (∀ k, k < 16 → ((Node_mask stride o_left o_right).testBit k = true ↔
        k = o_left / stride ∨ k = o_right / stride)) ∧
      (o_left / stride < 16 → o_right / stride < 16 →
        ∀ k, (Node_mask stride o_left o_right).testBit k = true ↔
          k = o_left / stride ∨ k = o_right / stride) ∧
      (∀ o_int, o_int / stride ≠ o_left / stride → o_int / stride ≠ o_right / stride →
        (Node_mask stride o_left o_right).testBit (o_int / stride) = false) ∧
      (stride * (o_left / stride) = o_left ∧ stride * (o_right / stride) = o_right) ∧
      Node_mask 8 8 24 = 0b1010 := by
  have hlt : ∀ k, (Node_mask stride o_left o_right).testBit k = true → k < 16 := by
    intro k h
    simp only [Node_mask, toUint16, Nat.testBit_mod_two_pow, Bool.and_eq_true,
      decide_eq_true_eq] at h
    exact h.1
  refine ⟨fun k hk => testBit_Node_mask _ _ _ k hk, ?_, ?_,
    ⟨Nat.mul_div_cancel' hl, Nat.mul_div_cancel' hr⟩, by decide⟩
  · intro h1 h2 k
    constructor
    · intro h
      exact (testBit_Node_mask _ _ _ k (hlt k h)).1 h
    · intro h
      have hk : k < 16 := by rcases h with h | h <;> omega
      exact (testBit_Node_mask _ _ _ k hk).2 h
  · intro o_int h1 h2
    rw [Bool.eq_false_iff]
    intro h
    rcases (testBit_Node_mask _ _ _ _ (hlt _ h)).1 h with h' | h'
    · exact h1 h'
    · exact h2 h'

/-- The 64-bit layout of `Node`: `i` at 0, `j` at 4, `left` at 8, `k` at 16,
`right` at 24.  Bits 1 and 3 are set; the words 0 and 2 of the ints are not. -/
theorem Node_mask_exact_witness :
    ((Node_mask 8 8 24).testBit 1 = true ∧ (Node_mask 8 8 24).testBit 3 = true) ∧
      ((Node_mask 8 8 24).testBit (0 / 8) = false ∧
        (Node_mask 8 8 24).testBit (4 / 8) = false ∧
        (Node_mask 8 8 24).testBit (16 / 8) = false) :=
  have h := Node_mask_exact 8 8 24 (by decide) (by decide)
  ⟨⟨(h.1 1 (by decide)).2 (Or.inl (by decide)), (h.1 3 (by decide)).2 (Or.inr (by decide))⟩,
    h.2.2.1 0 (by decide) (by decide), h.2.2.1 4 (by decide) (by decide),
    h.2.2.1 16 (by decide) (by decide)⟩

/-- C8 (as stated, refuted): take `Node` without padding on a 64-bit target,
`i` at 0, `j` at 4, `left` at 8, `k` at 16, `right` at 20.  The offset 20 is
not a multiple of `sizeof(void*) = 8`, and the compiled `Node_mask()` still
produces a mask, `0110`: the offset is rounded down to word 2, the word that
`k` starts.  Only the variant under `#if 0` rejects this layout. -/
theorem Node_mask_misaligned_rounds_down :
    20 % 8 ≠ 0 ∧ Node_mask 8 8 20 = 0b0110 ∧ Node_mask 8 8 20 = Node_mask 8 8 16 ∧
      (Node_mask 8 8 20).testBit (16 / 8) = true ∧
      Node_mask_static_assert 8 8 20 = none := by
  decide

/-- C8 (amended): the compiled `Node_mask()` has no failure path.  For every
pair of offsets it produces a mask, and an offset that is not a multiple of
`sizeof(void*)` is rounded down to the word it starts in; the variant with the
two `static_assert`s, which is under `#if 0`, reports a failure exactly for the
layouts with an offset off the word boundary and otherwise computes the same
mask. -/
theorem Node_mask_total_rounds_down (stride o_left o_right : Nat) :
    Node_mask stride o_left o_right
        = Node_mask stride (o_left - o_left % stride) (o_right - o_right % stride) ∧
      (∀ k, k < 16 → ((Node_mask stride o_left o_right).testBit k = true ↔
        k = o_left / stride ∨ k = o_right / stride)) ∧
      Node_mask_static_assert stride o_left o_right
        = if o_left % stride = 0 ∧ o_right % stride = 0
          then some (Node_mask stride o_left o_right) else none := by
  refine ⟨?_, fun k hk => testBit_Node_mask _ _ _ k hk, ?_⟩
  · simp only [Node_mask, ← Nat.div_eq_sub_mod_div]
  · unfold Node_mask_static_assert
    by_cases h1 : o_left % stride = 0
    · by_cases h2 : o_right % stride = 0
      · simp only [h1, h2, ne_eq, not_true_eq_false, if_false, and_self, if_true,
          Option.some.injEq]
        apply Nat.eq_of_testBit_eq
        intro k
        simp only [Node_mask, toUint16, Nat.testBit_mod_two_pow, Nat.testBit_or,
          Nat.zero_testBit, Bool.false_or]
        cases decide (k < 16) <;> simp
      · simp [h1, h2]
    · simp [h1]

/-! ## BufWriter: freeze is one-way -/

theorem BufWriter.write_invalid (w : BufWriter) (s : List Char) (h : w.is_valid_ = false) :
    w.write s = Except.error BufError.UseAfterFreeze := by
  simp [BufWriter.write, h]

/-- No call changes an invalid writer, except that it stays invalid. -/
theorem BufWriter.apply_invalid (w : BufWriter) (op : BufOp) (h : w.is_valid_ = false) :
    w.apply op = w := by
  cases op with
  | write s => simp [BufWriter.apply, BufWriter.write_invalid w s h]
  | getvalue =>
    cases w
    simp_all [BufWriter.apply, BufWriter.getvalue]

theorem BufWriter.run_invalid (w : BufWriter) (ops : List BufOp) (h : w.is_valid_ = false) :
    w.run ops = w := by
  induction ops with
  | nil => rfl
  | cons op ops ih =>
    simp only [BufWriter.run, List.foldl_cons] at ih ⊢
    rw [BufWriter.apply_invalid w op h]
    exact ih

/-- C9 (with `write` and `getvalue` modelled from the spec): a `BufWriter` is
valid when constructed; after `getvalue()` it is invalid, and it stays so
whatever calls follow; every later `write(s)` fails with UseAfterFreeze, and
the bytes that `getvalue()` returned are still what the buffer holds.  Writing
`AB` and `CD` to a new writer and freezing yields `ABCD`, and a write after
that fails. -/
theorem BufWriter_freeze_one_way (ptr_size payload_start offsetof_buf_ sizeof_BufWriter : Nat)
    (w : BufWriter) (ops : List BufOp) (s : List Char) :
    (BufWriter.ctor ptr_size payload_start offsetof_buf_ sizeof_BufWriter).is_valid_ = true ∧
      w.getvalue.1 = w.buf_.str_ ∧
      w.getvalue.2.is_valid_ = false ∧
      (w.getvalue.2.run ops).is_valid_ = false ∧
      (w.getvalue.2.run ops).write s = Except.error BufError.UseAfterFreeze ∧
      ((w.getvalue.2.run ops).apply (BufOp.write s)).buf_.str_ = w.getvalue.1 ∧
      (((BufWriter.ctor ptr_size payload_start offsetof_buf_ sizeof_BufWriter).run
          [BufOp.write ['A', 'B'], BufOp.write ['C', 'D']]).getvalue.1 = ['A', 'B', 'C', 'D'] ∧
        (((BufWriter.ctor ptr_size payload_start offsetof_buf_ sizeof_BufWriter).run
          [BufOp.write ['A', 'B'], BufOp.write ['C', 'D'], BufOp.getvalue]).write ['E']
          = Except.error BufError.UseAfterFreeze)) := by
  have hinv : w.getvalue.2.is_valid_ = false := rfl
  have hrun := BufWriter.run_invalid w.getvalue.2 ops hinv
  refine ⟨rfl, rfl, rfl, ?_, ?_, ?_, rfl, rfl⟩
  · rw [hrun]; exact hinv
  · rw [hrun]; exact BufWriter.write_invalid _ s hinv
  · rw [hrun, BufWriter.apply_invalid _ _ hinv]; rfl

/-! ## Integer formatting: the buffer is large enough -/

/-- A number below `base ^ k` has at most `k` digits. -/
theorem toDigitsCore_length_le (base : Nat) :
    ∀ (fuel k n : Nat) (ds : List Char), 1 ≤ k → n < base ^ k →
      (Nat.toDigitsCore base fuel n ds).length ≤ ds.length + k := by
  intro fuel
  induction fuel with
  | zero => intro k n ds _ _; simp [Nat.toDigitsCore]
  | succ fuel ih =>
    intro k n ds hk hn
    simp only [Nat.toDigitsCore]
    split_ifs with h
    · simp only [List.length_cons]; omega
    · have hbn : base ≤ n := by
        by_contra hlt
        exact h (Nat.div_eq_of_lt (not_le.mp hlt))
      have hk2 : 2 ≤ k := by
        by_contra hk2
        have hk1 : k = 1 := by omega
        rw [hk1, pow_one] at hn
        omega
      have hdiv : n / base < base ^ (k - 1) := by
        apply Nat.div_lt_of_lt_mul
        rw [← pow_succ']
        have : k - 1 + 1 = k := by omega
        rw [this]
        exact hn
      have := ih (k - 1) (n / base) ((n % base).digitChar :: ds) (by omega) hdiv
      simp only [List.length_cons] at this
      omega

theorem format_unsigned_length_le (base : Nat) (upper : Bool) (k u : Nat)
    (hk : 1 ≤ k) (hu : u < base ^ k) : (format_unsigned base upper u).length ≤ k := by
  have h := toDigitsCore_length_le base (u + 1) k u [] hk hu
  simp only [List.length_nil, Nat.zero_add] at h
  unfold format_unsigned Nat.toDigits
  cases upper <;> simpa using h

theorem int_as_unsigned_lt (i : Int) : int_as_unsigned i < 2 ^ 32 := by
  unfold int_as_unsigned CHAR_BIT sizeof_int
  have h := Int.emod_lt_of_pos i (show (0 : Int) < 2 ^ (8 * 4) by norm_num)
  have h0 := Int.emod_nonneg i (show (2 : Int) ^ (8 * 4) ≠ 0 by norm_num)
  norm_num at h h0 ⊢
  omega

/-- With a text of at most `kIntBufSize - 1` characters `snprintf` stores the
whole text and `StrFromC` returns it. -/
theorem StrFromC_snprintf (text : List Char) (h : text.length ≤ kIntBufSize - 1) :
    (snprintf kIntBufSize text).1 = text ∧
      StrFromC (snprintf kIntBufSize text).1 (snprintf kIntBufSize text).2 = some text := by
  have htake : text.take (kIntBufSize - 1) = text := List.take_of_length_le h
  simp [snprintf, StrFromC, htake]

/-- C10: with 32-bit `int` and `CHAR_BIT = 8`, `kIntBufSize` is 13; for every
`int i` the text of `octal(i)` has at most 11 characters and the text of
`hex_lower(i)` and `hex_upper(i)` at most 8, hence at most `kIntBufSize - 1`;
`snprintf` stores the whole text, and the `Str` returned is the complete
representation, as long as the length `snprintf` returned. -/
theorem int_format_fits_buffer (i : Int) (hlo : -2 ^ 31 ≤ i) (hhi : i < 2 ^ 31) :
    kIntBufSize = 13 ∧
      (format_unsigned 8 false (int_as_unsigned i)).length ≤ 11 ∧
      (format_unsigned 16 false (int_as_unsigned i)).length ≤ 8 ∧
      (format_unsigned 16 true (int_as_unsigned i)).length ≤ 8 ∧
      11 ≤ kIntBufSize - 1 ∧
      (int_as_unsigned i : Int) = (if 0 ≤ i then i else i + 2 ^ 32) ∧
      octal i = some (format_unsigned 8 false (int_as_unsigned i)) ∧
      hex_lower i = some (format_unsigned 16 false (int_as_unsigned i)) ∧
      hex_upper i = some (format_unsigned 16 true (int_as_unsigned i)) ∧
      (snprintf kIntBufSize (format_unsigned 8 false (int_as_unsigned i))).1
        = format_unsigned 8 false (int_as_unsigned i) ∧
      (snprintf kIntBufSize (format_unsigned 16 false (int_as_unsigned i))).1
        = format_unsigned 16 false (int_as_unsigned i) ∧
      (snprintf kIntBufSize (format_unsigned 16 true (int_as_unsigned i))).1
        = format_unsigned 16 true (int_as_unsigned i) := by
  have hu := int_as_unsigned_lt i
  have ho : (format_unsigned 8 false (int_as_unsigned i)).length ≤ 11 :=
    format_unsigned_length_le 8 false 11 _ (by decide)
      (lt_trans hu (by norm_num))
  have hx : ∀ upper, (format_unsigned 16 upper (int_as_unsigned i)).length ≤ 8 :=
    fun upper => format_unsigned_length_le 16 upper 8 _ (by decide)
      (lt_of_lt_of_le hu (by norm_num))
  have hk : kIntBufSize = 13 := by decide
  have hval : (int_as_unsigned i : Int) = (if 0 ≤ i then i else i + 2 ^ 32) := by
    unfold int_as_unsigned CHAR_BIT sizeof_int
    have h0 := Int.emod_nonneg i (show (2 : Int) ^ (8 * 4) ≠ 0 by norm_num)
    rw [Int.toNat_of_nonneg h0]
    norm_num at hlo hhi ⊢
    split_ifs with hpos
    · exact Int.emod_eq_of_lt hpos (by omega)
    · rw [← Int.add_emod_self]
      exact Int.emod_eq_of_lt (by omega) (by omega)
  have hfo := StrFromC_snprintf (format_unsigned 8 false (int_as_unsigned i))
    (by rw [hk]; omega)
  have hfx := fun upper => StrFromC_snprintf (format_unsigned 16 upper (int_as_unsigned i))
    (by rw [hk]; have := hx upper; omega)
  exact ⟨hk, ho, hx false, hx true, by rw [hk]; decide, hval, hfo.2, (hfx false).2,
    (hfx true).2, hfo.1, (hfx false).1, (hfx true).1⟩

/-- The value `-1`: `37777777777` in octal (11 characters), `ffffffff` and
`FFFFFFFF` in hexadecimal (8 characters). -/
theorem int_format_fits_buffer_witness :
    octal (-1) = some ['3', '7', '7', '7', '7', '7', '7', '7', '7', '7', '7'] ∧
      hex_lower (-1) = some ['f', 'f', 'f', 'f', 'f', 'f', 'f', 'f'] ∧
      hex_upper (-1) = some ['F', 'F', 'F', 'F', 'F', 'F', 'F', 'F'] ∧
      (format_unsigned 8 false (int_as_unsigned (-1))).length ≤ 11 :=
  ⟨by decide, by decide, by decide,
    (int_format_fits_buffer (-1) (by decide) (by decide)).2.1⟩

/-! ## Exceptions -/

/-- C11: `compare(a, b)` raises `invalid_argument` if and only if `a < 0` or
`b < 0`, and for `a ≥ 0`, `b ≥ 0` it returns 1 when `a < b` and 0 otherwise;
`parse` raises `ParseError` exactly when the text starts with `f`; the
`FatalError` of `except_subclass_demo` is not taken by its `ParseError` handler
and propagates.  So `except_demo` counts exactly 3 caught exceptions, and its
assertion passes. -/
theorem except_demo_counts_three (a b : Int) (text : List Char) :
    (compare a b = Except.error (Exn.invalid_argument "received negative value") ↔
        a < 0 ∨ b < 0) ∧
      ((∃ e, compare a b = Except.error e) ↔ a < 0 ∨ b < 0) ∧
      (0 ≤ a → 0 ≤ b → a < b → compare a b = Except.ok 1) ∧
      (0 ≤ a → 0 ≤ b → ¬ a < b → compare a b = Except.ok 0) ∧
      (parse text = Except.error (Exn.ParseError "started with f") ↔
        text.head? = some 'f') ∧
      (¬ text.head? = some 'f' → parse text = Except.ok 0) ∧
      Exn.FatalError.caughtBy ExnClass.ParseError = false ∧
      except_subclass_demo = Except.error Exn.FatalError ∧
      except_demo_num_caught = Except.ok 3 ∧
      except_demo = Except.ok TestResult.PASS := by
  have hhead : text.headD (Char.ofNat 0) = 'f' ↔ text.head? = some 'f' := by
    cases text with
    | nil => simp only [List.headD_nil, List.head?_nil]; decide
    | cons c cs => simp
  refine ⟨?_, ?_, ?_, ?_, ?_, ?_, rfl, rfl, rfl, rfl⟩
  · unfold compare
    by_cases h : a < 0 ∨ b < 0
    · simp [h]
    · simp [h]
  · unfold compare
    by_cases h : a < 0 ∨ b < 0
    · simp [h]
    · simp [h]
  · intro ha hb hab
    have h : ¬ (a < 0 ∨ b < 0) := by omega
    simp [compare, h, hab]
  · intro ha hb hab
    have h : ¬ (a < 0 ∨ b < 0) := by omega
    simp [compare, h, hab]
  · unfold parse
    by_cases h : text.headD (Char.ofNat 0) = 'f'
    · rw [if_pos h]
      exact ⟨fun _ => hhead.1 h, fun _ => rfl⟩
    · rw [if_neg h]
      constructor
      · intro hc
        cases hc
      · intro hf
        exact absurd (hhead.2 hf) h
  · intro h
    have h' : ¬ text.headD (Char.ofNat 0) = 'f' := fun hf => h (hhead.1 hf)
    unfold parse
    rw [if_neg h']

/-- The calls that `except_demo` makes: `compare(1, 3)` is 1, `compare(5, 4)`
is 0, `compare(-1, 3)` raises, `parse("bar")` is 0. -/
theorem except_demo_counts_three_witness :
    compare 1 3 = Except.ok 1 ∧ compare 5 4 = Except.ok 0 ∧
      compare (-1) 3 = Except.error (Exn.invalid_argument "received negative value") ∧
      parse ['b', 'a', 'r'] = Except.ok 0 :=
  ⟨(except_demo_counts_three 1 3 []).2.2.1 (by decide) (by decide) (by decide),
    (except_demo_counts_three 5 4 []).2.2.2.1 (by decide) (by decide) (by decide),
    (except_demo_counts_three (-1) 3 []).1.2 (Or.inl (by decide)),
    (except_demo_counts_three 0 0 ['b', 'a', 'r']).2.2.2.2.2.1 (by decide)⟩

/-! ## Dict: frame of `mylib::dict_erase` -/

/-- C12: frame of erase.  When the key is found at slot `pos`, `dict_erase`
changes only `entry_[pos]`, `keys_[pos]`, `values_[pos]` and `len_`: every
other slot of the three arrays keeps its state, key and value, and the table
capacity and the sizes of the three arrays are the same (no resize, no rehash,
no entry moved). -/
theorem dict_erase_frame [DecidableEq K] [Zero K] [Zero V] (hash : K → Nat)
    (d : Dict K V) (k : K) (pos : Int) (hpos : d.position_of_key hash k = pos)
    (hne : pos ≠ -1) :
    (dict_erase hash d k).capacity_ = d.capacity_ ∧
      (dict_erase hash d k).entry_.length = d.entry_.length ∧
      (dict_erase hash d k).keys_.length = d.keys_.length ∧
      (dict_erase hash d k).values_.length = d.values_.length ∧
      ∀ j : Nat, (j : Int) ≠ pos →
        (dict_erase hash d k).entry_[j]? = d.entry_[j]? ∧
        (dict_erase hash d k).keys_[j]? = d.keys_[j]? ∧
        (dict_erase hash d k).values_[j]? = d.values_[j]? := by
  subst hpos
  obtain ⟨s, hs, -, -, -⟩ := position_of_key_found hash d k hne
  rw [dict_erase_found hash d k s hs, hs]
  refine ⟨rfl, by simp, by simp, by simp, ?_⟩
  intro j hj
  have hsj : s ≠ j := by
    intro h
    exact hj (by rw [h])
  simp [List.getElem?_set_ne hsj]

/-- Erasing key `8` (slot 1) of the example table: slots 0, 2 and 3 are as
before. -/
theorem dict_erase_frame_witness :
    exampleDict.position_of_key (fun _ => 0) 8 = 1 ∧
      (dict_erase (fun _ => 0) exampleDict 8).capacity_ = 4 ∧
      ((dict_erase (fun _ => 0) exampleDict 8).entry_[2]? = exampleDict.entry_[2]? ∧
        (dict_erase (fun _ => 0) exampleDict 8).keys_[2]? = exampleDict.keys_[2]? ∧
        (dict_erase (fun _ => 0) exampleDict 8).values_[2]? = exampleDict.values_[2]?) :=
  have h := dict_erase_frame (fun _ => 0) exampleDict 8 1 (by decide) (by decide)
  ⟨by decide, h.1, h.2.2.2.2 2 (by decide)⟩

end Oil
